import Mathlib

/-!
Verification development for the incremental semantic file-search system.

The Python source is shallowly embedded: pure functions become Lean
functions, the indexer's mutable state becomes an explicit state record
threaded through the operations, file-system access becomes an explicit
`Disk` value, and the external extractor / embedding model become function
parameters.  Floating-point scores are modelled as exact rationals; the
md5 digest is modelled by the byte stream that is fed to the hasher
(collisions of the real digest are outside the model).
-/

/-! ## String and character utilities (model of Python str operations) -/

/-- Model of the regex word character class used by the source
(ASCII fragment of Python's defaults for the regexes in the source). -/
def isWordChar (c : Char) : Bool := c.isAlphanum || c = '_'

/-- Helper for tokenisation: accumulates the current run of word
characters (reversed) while scanning the input. -/
def tokenizeAux (acc : List Char) : List Char → List (List Char)
  | [] => if acc.isEmpty then [] else [acc.reverse]
  | c :: rest =>
    if isWordChar c then tokenizeAux (c :: acc) rest
    else if acc.isEmpty then tokenizeAux [] rest
    else acc.reverse :: tokenizeAux [] rest

/-- Maximal runs of word characters: model of re.findall of a word-char-run
pattern over a string (the word-boundary anchors around a maximal run are
redundant, so both regexes used in the source tokenise identically). -/
def strTokens (s : String) : List String :=
  (tokenizeAux [] s.toList).map String.mk

/-- Model of Python str.lower (ASCII fragment). -/
def strLower (s : String) : String := String.mk (s.toList.map Char.toLower)

/-- Substring test on character lists: model of the Python infix operator
for membership of one string in another. -/
def containsSub (hay needle : List Char) : Bool :=
  match hay with
  | [] => needle.isEmpty
  | _ :: t => needle.isPrefixOf hay || containsSub t needle

/-- Substring test on strings. -/
def containsStr (hay needle : String) : Bool :=
  containsSub hay.toList needle.toList

/-- Model of Python str.replace: replaces every non-overlapping occurrence
of old, scanning left to right.  The source only ever calls it with a
non-empty old string (a regex token), so the empty-pattern case (where
Python would interleave new everywhere) is mapped to the identity. -/
def replaceAll (old new : List Char) : List Char → List Char
  | [] => []
  | c :: rest =>
    if h : old ≠ [] ∧ old.isPrefixOf (c :: rest) then
      new ++ replaceAll old new ((c :: rest).drop old.length)
    else
      c :: replaceAll old new rest
termination_by s => s.length
decreasing_by
  · simp only [List.length_drop, List.length_cons]
    have : 0 < old.length := List.length_pos.mpr h.1
    omega
  · simp

/-! ## Dictionary utilities (model of Python dict, insertion-ordered) -/

/-- Association-list lookup: model of dict access / the in operator. -/
def dictGet {α : Type} (d : List (String × α)) (k : String) : Option α :=
  (d.find? (fun e => e.1 = k)).map (·.2)

/-- Association-list update: model of dict assignment.  An existing key
keeps its original position (CPython dicts preserve insertion order and
in-place updates keep the slot); a fresh key is appended. -/
def dictSet {α : Type} : List (String × α) → String → α → List (String × α)
  | [], k, v => [(k, v)]
  | (k', v') :: rest, k, v =>
    if k' = k then (k, v) :: rest else (k', v') :: dictSet rest k v

/-- Association-list deletion: model of the del statement on a dict. -/
def dictDel {α : Type} : List (String × α) → String → List (String × α)
  | [], _ => []
  | (k', v') :: rest, k =>
    if k' = k then rest else (k', v') :: dictDel rest k

/-! ## File system model -/

/-- What the OS reports for a path: the file's bytes and mtime on success,
an I/O error (any OSError raised by stat or open), or no entry at all. -/
inductive DiskEntry
  | absent
  | ioError
  | file (bytes : List Nat) (mtime : Int)
deriving DecidableEq

/-- A snapshot of the file system at one point in time. -/
def Disk : Type := String → DiskEntry

/-- Model of Path.exists: stat failures (including a missing entry)
report False. -/
def diskExists (disk : Disk) (p : String) : Bool :=
  match disk p with
  | .file _ _ => true
  | _ => false

/-! ## IncrementalIndexer.calculate_file_hash -/

/-- Model of a read of n bytes at a given file offset (a read past the
end of the file is truncated, as in the OS). -/
def readAt (bytes : List Nat) (pos n : Nat) : List Nat :=
  (bytes.drop pos).take n

/-- The byte stream fed to the md5 hasher by calculate_file_hash: the whole
content for a file of at most sample_size bytes; otherwise one
sample_size/3 window from the start, one from offset size/2 and one
ending at the end of the file.  The digest itself is modelled by this
stream (the source's max with 0 for the final offset is natural
subtraction here). -/
def hashedSample (bytes : List Nat) (sample_size : Nat) : List Nat :=
  let file_size := bytes.length
  if file_size ≤ sample_size then bytes
  else
    readAt bytes 0 (sample_size / 3) ++
    readAt bytes (file_size / 2) (sample_size / 3) ++
    readAt bytes (file_size - sample_size / 3) (sample_size / 3)

/-- Hash with the source's default sample size of 8 KiB. -/
def calculate_file_hash (bytes : List Nat) : List Nat :=
  hashedSample bytes 8192

/-! ## Indexer data model -/

/-- Record of a file's indexing state (dataclass FileRecord). -/
structure FileRecord where
  file_path : String
  filename : String
  size_bytes : Nat
  modified_time : Int
  content_hash : List Nat
  indexed_time : Int
  embedding_index : Nat
  content_preview : String
  category : String
  word_count : Nat
deriving DecidableEq

/-- The dict returned by the extractor's extract_content (char_count and
the nested metadata dict are omitted: no operation verified here reads
them). -/
structure ExtractedContent where
  file_path : String
  filename : String
  content : String
  word_count : Nat
  category : String
deriving DecidableEq

/-- An entry of the indexer's documents list: the extractor dict plus the
embedding_index and indexed_time keys added at commit. -/
structure DocEntry where
  data : ExtractedContent
  embedding_index : Nat
  indexed_time : Int
deriving DecidableEq

/-- Embedding vectors; the FAISS inner-product index stores them in slot
order. -/
def Vec : Type := List Int
deriving instance DecidableEq for Vec

/-- Mutable state of IncrementalIndexer: the file_records dict, the FAISS
index contents (ntotal = vectors.length) and the documents list. -/
structure IndexerState where
  file_records : List (String × FileRecord)
  vectors : List Vec
  documents : List DocEntry
deriving DecidableEq

/-- The indexer state on first use: everything empty. -/
def emptyState : IndexerState := ⟨[], [], []⟩

/-- The indexer's external collaborators at one call: the document
extractor, the embedding model (None models an extraction/embedding
failure), the disk snapshot and the current wall-clock time. -/
structure Env where
  extractor : String → Option ExtractedContent
  embed : String → Option Vec
  disk : Disk
  now : Int

/-- Model of Path basename (POSIX separators), used for FileRecord.filename. -/
def baseName (p : String) : String :=
  String.mk (p.toList.foldl (fun acc c => if c = '/' then [] else acc ++ [c]) [])

/-! ## IncrementalIndexer.needs_reindexing -/

/-- Decides whether a path must be (re-)indexed: a path with no record, a
larger mtime, a different size, a different content hash, or any I/O
error during inspection answers true; only a recorded, unchanged file
answers false. -/
def needs_reindexing (records : List (String × FileRecord)) (disk : Disk)
    (p : String) : Bool :=
  match dictGet records p with
  | none => true
  | some record =>
    match disk p with
    | .file bytes mtime =>
      if record.modified_time < mtime then true
      else if bytes.length ≠ record.size_bytes then true
      else if calculate_file_hash bytes ≠ record.content_hash then true
      else false
    | _ => true

/-! ## IncrementalIndexer.index_single_file -/

/-- Indexes one file, returning the success flag and the new state.  The
FAISS append happens before the stat that builds the record, so a stat
failure after a successful extraction and embedding leaves the appended
vector behind with no record, exactly as the source's try block does. -/
def index_single_file (env : Env) (st : IndexerState) (p : String) :
    Bool × IndexerState :=
  match env.extractor p with
  | none => (false, st)
  | some content_data =>
    match env.embed content_data.content with
    | none => (false, st)
    | some embedding =>
      let vectors' := st.vectors ++ [embedding]
      let embedding_index := vectors'.length - 1
      match env.disk p with
      | .file bytes mtime =>
        let record : FileRecord :=
          { file_path := p
            filename := baseName p
            size_bytes := bytes.length
            modified_time := mtime
            content_hash := calculate_file_hash bytes
            indexed_time := env.now
            embedding_index := embedding_index
            content_preview := String.mk (content_data.content.toList.take 200)
            category := content_data.category
            word_count := content_data.word_count }
        let doc : DocEntry :=
          { data := content_data
            embedding_index := embedding_index
            indexed_time := env.now }
        let documents' :=
          match st.documents.findIdx? (fun d => d.data.file_path = p) with
          | some i => st.documents.set i doc
          | none => st.documents ++ [doc]
        (true, { file_records := dictSet st.file_records p record
                 vectors := vectors'
                 documents := documents' })
      | _ => (false, { st with vectors := vectors' })

/-! ## IncrementalIndexer.incremental_index -/

/-- Statistics dict returned by incremental_index (the wall-clock duration
key is not modelled). -/
structure IndexStats where
  total_files : Nat
  processed : Nat
  skipped : Nat
  errors : Nat
deriving DecidableEq

/-- Processes the filtered worklist, counting successes and failures.  The
source drains a thread pool, but every commit mutates the shared state
under the interpreter's serialization and each future is counted exactly
once, so the fold is over one completion order. -/
def runFiles (env : Env) : IndexerState → List String → IndexerState × Nat × Nat
  | st, [] => (st, 0, 0)
  | st, p :: rest =>
    let step := index_single_file env st p
    let recur := runFiles env step.2 rest
    if step.1 then (recur.1, recur.2.1 + 1, recur.2.2)
    else (recur.1, recur.2.1, recur.2.2 + 1)

/-- Incremental indexing of a candidate list: filters by needs_reindexing
against the state at entry, then processes the survivors.  The source's
early return for an empty worklist produces the same stats as the
general path. -/
def incremental_index (env : Env) (st : IndexerState) (files : List String) :
    IndexerState × IndexStats :=
  let files_to_process := files.filter (fun p => needs_reindexing st.file_records env.disk p)
  let run := runFiles env st files_to_process
  (run.1,
   { total_files := files.length
     processed := run.2.1
     skipped := files.length - files_to_process.length
     errors := run.2.2 })

/-! ## IncrementalIndexer.search -/

/-- Inner product of two embedding vectors. -/
def dot (a b : Vec) : Int := (List.zipWith (· * ·) a b).sum

/-- Places a scored slot into a list ordered by score descending with
ties broken by lower slot index: the hit is inserted before the first
entry it must strictly precede. -/
def insertHit (x : Int × Nat) : List (Int × Nat) → List (Int × Nat)
  | [] => [x]
  | y :: ys =>
    if y.1 < x.1 ∨ (x.1 = y.1 ∧ x.2 < y.2) then x :: y :: ys
    else y :: insertHit x ys

/-- Orders scored slots by score descending, ties by lower slot index. -/
def sortHits (l : List (Int × Nat)) : List (Int × Nat) :=
  l.foldl (fun acc x => insertHit x acc) []

/-- Model of the FAISS flat inner-product search: every slot is scored,
the list is ordered by score descending with ties broken by lower slot
index, and the first k entries are returned. -/
def faissTopK (vectors : List Vec) (q : Vec) (k : Nat) : List (Int × Nat) :=
  let scored := vectors.enum.map (fun e => (dot q e.2, e.1))
  (sortHits scored).take k

/-- Model of IncrementalIndexer.search: embeds the query, fetches the top
min(top_k, ntotal) slots, and keeps a hit only when its slot index is a
valid position of the documents list, pairing that document with the
hit's score.  (The source then copies record metadata into the result
dict; the document and score carry everything the claims inspect.) -/
def indexer_search (env : Env) (st : IndexerState) (query : String)
    (top_k : Nat) : List (DocEntry × Int) :=
  if st.documents = [] then []
  else
    match env.embed query with
    | none => []
    | some qv =>
      let hits := faissTopK st.vectors qv (min top_k st.vectors.length)
      hits.filterMap (fun hit =>
        (st.documents.get? hit.2).map (fun d => (d, hit.1)))

/-! ## IncrementalIndexer.cleanup_deleted_files -/

/-- Removes records and document entries whose path no longer exists on
disk; returns the number of removed records together with the new state.
The FAISS vectors are left untouched, as in the source. -/
def cleanup_deleted_files (disk : Disk) (st : IndexerState) :
    Nat × IndexerState :=
  let files_to_remove :=
    (st.file_records.filter (fun e => ¬ diskExists disk e.1)).map (·.1)
  let records' := files_to_remove.foldl (fun d k => dictDel d k) st.file_records
  let documents' := st.documents.filter (fun d => diskExists disk d.data.file_path)
  (files_to_remove.length,
   { st with file_records := records', documents := documents' })

/-! ## Query expansion (QueryExpander.expand_query) -/

/-- The domain_expansions table of QueryExpander, in dict insertion order. -/
def domain_expansions : List (String × List String) := [
  ("financial", ["revenue", "profit", "earnings", "budget", "cost", "ROI", "expenses", "income"]),
  ("customer", ["client", "user", "consumer", "satisfaction", "feedback", "support", "service"]),
  ("technical", ["development", "code", "programming", "software", "system", "implementation"]),
  ("business", ["strategy", "planning", "management", "operations", "performance", "metrics"]),
  ("marketing", ["campaign", "promotion", "advertising", "branding", "engagement", "conversion"]),
  ("project", ["task", "milestone", "deadline", "deliverable", "timeline", "resource", "scope"]),
  ("data", ["analysis", "statistics", "metrics", "insights", "trends", "patterns", "report"]),
  ("meeting", ["discussion", "agenda", "notes", "minutes", "action items", "decision"])]

/-- The synonyms table of QueryExpander, in dict insertion order. -/
def synonymsTable : List (String × List String) := [
  ("error", ["bug", "issue", "problem", "failure", "exception"]),
  ("improve", ["enhance", "optimize", "better", "upgrade", "refine"]),
  ("urgent", ["critical", "important", "priority", "immediate", "asap"]),
  ("update", ["change", "modify", "revise", "edit", "refresh"]),
  ("plan", ["strategy", "roadmap", "schedule", "timeline", "blueprint"])]

/-- Inner loop of the domain stage: appends query + term for each term not
already a substring of the lowercased query, stopping (the source's
break, which leaves only this inner loop) once the accumulated list has
reached max_expansions. -/
def appendTerms (query query_lower : String) (maxExp : Nat) :
    List String → List String → List String
  | acc, [] => acc
  | acc, t :: rest =>
    if containsStr query_lower t then appendTerms query query_lower maxExp acc rest
    else if maxExp ≤ (acc ++ [query ++ " " ++ t]).length then acc ++ [query ++ " " ++ t]
    else appendTerms query query_lower maxExp (acc ++ [query ++ " " ++ t]) rest

/-- Domain stage of expand_query: a domain fires when its name or one of
its first three terms occurs in the lowercased query; its first two
terms are then offered to the inner loop.  The outer loop always visits
every domain (the source's break only exits the inner loop). -/
def domainStage (query query_lower : String) (maxExp : Nat)
    (acc0 : List String) : List String :=
  domain_expansions.foldl (fun acc e =>
    if containsStr query_lower e.1 ||
       (e.2.take 3).any (fun w => containsStr query_lower w) then
      appendTerms query query_lower maxExp acc (e.2.take 2)
    else acc) acc0

/-- Inner loop of the synonym stage: for each of the first two synonyms,
appends the original query with every occurrence of the word replaced,
stopping at max_expansions as in the source's inner break. -/
def appendSyns (query : String) (word : String) (maxExp : Nat) :
    List String → List String → List String
  | acc, [] => acc
  | acc, s :: rest =>
    if maxExp ≤ (acc ++ [String.mk (replaceAll word.toList s.toList query.toList)]).length then
      acc ++ [String.mk (replaceAll word.toList s.toList query.toList)]
    else
      appendSyns query word maxExp
        (acc ++ [String.mk (replaceAll word.toList s.toList query.toList)]) rest

/-- Synonym stage of expand_query: iterates over the tokens of the
lowercased query (duplicates included) and fires on the ones that key
the synonyms table. -/
def synonymStage (query : String) (maxExp : Nat) (words : List String)
    (acc0 : List String) : List String :=
  words.foldl (fun acc w =>
    match dictGet synonymsTable w with
    | some syns => appendSyns query w maxExp acc (syns.take 2)
    | none => acc) acc0

/-- The expansions list built by expand_query before the final truncation:
the original query, then the domain stage, then the synonym stage, then
(for a multi-token query) the join of all tokens but the last and the
join of all tokens but the first. -/
def preTake (query : String) (maxExp : Nat) : List String :=
  let query_lower := strLower query
  let words := strTokens query_lower
  let acc2 := synonymStage query maxExp words
    (domainStage query query_lower maxExp [query])
  if 1 < words.length then
    acc2 ++ [String.intercalate " " words.dropLast,
             String.intercalate " " words.tail]
  else acc2

/-- QueryExpander.expand_query: the staged expansions truncated to
max_expansions. -/
def expand_query (query : String) (max_expansions : Nat) : List String :=
  (preTake query max_expansions).take max_expansions

/-! ## Ranking (SmartRanker) -/

/-- The slice of the intent-analysis dict read by the ranker. -/
structure IntentAnalysis where
  needs_recent_files : Bool
  file_type_hints : List String
deriving DecidableEq

/-- A raw result dict as handed to the ranker: the similarity score kept
by the fan-out dedup, plus the fields the component scores read.
age_days models the already-parsed difference in days between now and
the result's last_modified timestamp; none models an absent or
unparsable timestamp, for which the source's recency computation
returns 0 via its early return or exception handler. -/
structure RankResult where
  file_path : String
  filename : String
  similarity_score : ℚ
  category : String
  age_days : Option Int
deriving DecidableEq

/-- SmartRanker recency component. -/
def calculate_recency_score (result : RankResult)
    (intent : IntentAnalysis) : ℚ :=
  if !intent.needs_recent_files then 1/2
  else
    match result.age_days with
    | none => 0
    | some days_old =>
      if days_old = 0 then 1
      else if days_old = 1 then 4/5
      else if days_old ≤ 7 then 3/5
      else if days_old ≤ 30 then 2/5
      else 1/5

/-- SmartRanker file-type component. -/
def calculate_file_type_score (result : RankResult)
    (intent : IntentAnalysis) : ℚ :=
  if intent.file_type_hints = [] then 1/2
  else
    let cat := strLower result.category
    if intent.file_type_hints.any (fun hint =>
        (hint = "document" && (cat = "document" || cat = "text")) ||
        (hint = "data" && cat = "data") ||
        (hint = "code" && cat = "code")) then 1
    else 3/10

/-- SmartRanker filename component: exact token overlap between query and
filename scores overlap/|query tokens|; with no overlap each query token
occurring as a substring of the filename contributes 0.5, the sum is
divided by the number of query tokens and clipped to 1. -/
def calculate_filename_score (result : RankResult) (query : String) : ℚ :=
  let filename := strLower result.filename
  let query_words := (strTokens (strLower query)).eraseDups
  if query_words = [] then 0
  else
    let filename_words := (strTokens filename).eraseDups
    let overlapW := query_words.filter (fun w => filename_words.contains w)
    if overlapW ≠ [] then (overlapW.length : ℚ) / query_words.length
    else
      let partialScore : ℚ :=
        ((query_words.filter (fun w => containsStr filename w)).length : ℚ) * (1/2)
      min 1 (partialScore / query_words.length)

/-- SmartRanker access-frequency component.  The empty pattern list covers
both a missing context and an empty access dict, which the source's
truthiness test treats alike. -/
def calculate_access_score (result : RankResult)
    (patterns : List (String × Nat)) : ℚ :=
  if patterns = [] then 1/2
  else
    let access_count := (dictGet patterns result.file_path).getD 0
    if access_count = 0 then 3/10
    else if access_count ≤ 2 then 3/5
    else if access_count ≤ 5 then 4/5
    else 1

/-- The ranking_weights dict of SmartRanker. -/
def ranking_weights : List (String × ℚ) := [
  ("semantic_similarity", 2/5),
  ("recency", 1/5),
  ("file_type_match", 3/20),
  ("filename_match", 3/20),
  ("access_frequency", 1/10)]

/-- The scores dict assembled inside calculate_relevance_score. -/
def scoreComponents (result : RankResult) (query : String)
    (intent : IntentAnalysis) (patterns : List (String × Nat)) :
    List (String × ℚ) := [
  ("semantic_similarity", result.similarity_score),
  ("recency", calculate_recency_score result intent),
  ("file_type_match", calculate_file_type_score result intent),
  ("filename_match", calculate_filename_score result query),
  ("access_frequency", calculate_access_score result patterns)]

/-- SmartRanker.calculate_relevance_score: the weighted combination over
the ranking_weights dict, clamped to the unit interval. -/
def calculate_relevance_score (result : RankResult) (query : String)
    (intent : IntentAnalysis) (patterns : List (String × Nat)) : ℚ :=
  let scores := scoreComponents result query intent patterns
  let total := (ranking_weights.map (fun e =>
    ((dictGet scores e.1).getD 0) * e.2)).sum
  min 1 (max 0 total)

/-! ## AgenticSearchEngine.search: dedup, scoring and ordering -/

/-- One update of the all_results dict: a new path is appended, a known
path keeps its position and keeps the better similarity score. -/
def insertBest : List RankResult → RankResult → List RankResult
  | [], r => [r]
  | x :: xs, r =>
    if x.file_path = r.file_path then
      (if x.similarity_score < r.similarity_score then r else x) :: xs
    else x :: insertBest xs r

/-- The fan-out dedup of AgenticSearchEngine.search: the raw hits of all
expansion queries, in order, folded into the all_results dict. -/
def dedupeResults (raw : List RankResult) : List RankResult :=
  raw.foldl insertBest []

/-- The slice of the enhanced result the ordering claims inspect. -/
structure RankedOut where
  file_path : String
  similarity_score : ℚ
  confidence : ℚ
deriving DecidableEq

/-- Builds the enhanced result for one deduplicated candidate. -/
def toRankedOut (query : String) (intent : IntentAnalysis)
    (patterns : List (String × Nat)) (r : RankResult) : RankedOut :=
  { file_path := r.file_path
    similarity_score := r.similarity_score
    confidence := calculate_relevance_score r query intent patterns }

/-- Places an enhanced result into a list ordered by confidence
descending: the new result goes after every earlier result of equal or
higher confidence, before the first strictly lower one. -/
def insertScored (x : RankedOut) : List RankedOut → List RankedOut
  | [] => [x]
  | y :: ys =>
    if y.confidence < x.confidence then x :: y :: ys
    else y :: insertScored x ys

/-- Stable sort by confidence descending: each element is inserted after
the already-placed elements of equal confidence, so elements with equal
keys keep their input order, exactly as Python's stable list.sort with a
reversed key comparison does. -/
def sortScored (l : List RankedOut) : List RankedOut :=
  l.foldl (fun acc x => insertScored x acc) []

/-- The rerank-and-truncate tail of AgenticSearchEngine.search: scores
every deduplicated candidate, sorts by confidence descending with the
stable sort, and returns the first top_k. -/
def engineRank (raw : List RankResult) (query : String)
    (intent : IntentAnalysis) (patterns : List (String × Nat))
    (top_k : Nat) : List RankedOut :=
  let enhanced := (dedupeResults raw).map (toRankedOut query intent patterns)
  (sortScored enhanced).take top_k

/-! ## Formulas as the spec claims them (for refinement comparison) -/

/-- The relevance formula exactly as the claim states it: the semantic
component is the best inner-product score rescaled to the unit interval
as (s+1)/2, the other components and the weights are as in the ranker,
and the weighted sum is clamped to the unit interval.  Stated from the
spec's words, to be compared with calculate_relevance_score. -/
def relevance_score_claimed (result : RankResult) (query : String)
    (intent : IntentAnalysis) (patterns : List (String × Nat)) : ℚ :=
  let semantic := (result.similarity_score + 1) / 2
  min 1 (max 0 (semantic * (2/5) +
    calculate_recency_score result intent * (1/5) +
    calculate_file_type_score result intent * (3/20) +
    calculate_filename_score result query * (3/20) +
    calculate_access_score result patterns * (1/10)))

/-- The filename formula exactly as the claim states it: with no exact
token overlap the score is 0.5 per substring hit, clipped to 1.0 (no
division by the query token count).  Stated from the spec's words, to be
compared with calculate_filename_score. -/
def filename_score_claimed (result : RankResult) (query : String) : ℚ :=
  let filename := strLower result.filename
  let query_words := (strTokens (strLower query)).eraseDups
  if query_words = [] then 0
  else
    let filename_words := (strTokens filename).eraseDups
    let overlapW := query_words.filter (fun w => filename_words.contains w)
    if overlapW ≠ [] then (overlapW.length : ℚ) / query_words.length
    else
      min 1 (((query_words.filter (fun w => containsStr filename w)).length : ℚ) * (1/2))

/-! ## Concrete scenarios used by the witnesses and counterexamples -/

/-- Embedding table for the scenarios: two fixed orthogonal unit vectors. -/
def embedT : String → Option Vec := fun s =>
  if s = "alpha" then some [1, 0]
  else if s = "beta" then some [0, 1]
  else none

/-- Disk before the modification: path a holds two bytes at mtime 100. -/
def diskA1 : Disk := fun p => if p = "a" then .file [1, 2] 100 else .absent

/-- Disk after the modification: path a holds three bytes at mtime 200. -/
def diskA2 : Disk := fun p => if p = "a" then .file [3, 4, 5] 200 else .absent

/-- Extractor output for path a before the modification. -/
def extrA1 : String → Option ExtractedContent := fun p =>
  if p = "a" then some ⟨"a", "a", "alpha", 1, "text"⟩ else none

/-- Extractor output for path a after the modification. -/
def extrA2 : String → Option ExtractedContent := fun p =>
  if p = "a" then some ⟨"a", "a", "beta", 1, "text"⟩ else none

/-- Indexing environment for the first pass of the modification scenario. -/
def envA1 : Env := ⟨extrA1, embedT, diskA1, 10⟩

/-- Indexing environment for the re-index after the modification. -/
def envA2 : Env := ⟨extrA2, embedT, diskA2, 20⟩

/-- State after first indexing path a. -/
def stA1 : IndexerState := (incremental_index envA1 emptyState ["a"]).1

/-- State after re-indexing the modified path a. -/
def stA2 : IndexerState := (incremental_index envA2 stA1 ["a"]).1

/-- Disk for the cleanup scenario: paths a and b both present. -/
def diskB1 : Disk := fun p =>
  if p = "a" then .file [1] 100
  else if p = "b" then .file [2] 110
  else .absent

/-- Disk for the cleanup scenario after b is deleted from disk. -/
def diskB2 : Disk := fun p => if p = "a" then .file [1] 100 else .absent

/-- Extractor for the cleanup scenario. -/
def extrB : String → Option ExtractedContent := fun p =>
  if p = "a" then some ⟨"a", "a", "alpha", 1, "text"⟩
  else if p = "b" then some ⟨"b", "b", "beta", 1, "text"⟩
  else none

/-- Environment for indexing a and b. -/
def envB1 : Env := ⟨extrB, embedT, diskB1, 10⟩

/-- Environment after b disappeared from disk. -/
def envB2 : Env := ⟨extrB, embedT, diskB2, 30⟩

/-- State with both a and b indexed (slots 0 and 1). -/
def stB1 : IndexerState := (incremental_index envB1 emptyState ["a", "b"]).1

/-- Result of the cleanup sweep after b is deleted from disk. -/
def cleanB : Nat × IndexerState := cleanup_deleted_files diskB2 stB1

/-- Ranker input of the counterexample to the claimed semantic rescale: a
raw inner-product score of -1/2 with every other signal neutral. -/
def resC4 : RankResult := ⟨"a.txt", "zzz.txt", -(1/2), "text", none⟩

/-- Intent with no recency need and no type hints (neutral signals). -/
def intentC4 : IntentAnalysis := ⟨false, []⟩

/-- First tied candidate of the ordering counterexample (lower semantic
score, lexicographically larger path, first in dedup order). -/
def rC5a : RankResult := ⟨"b.txt", "b.txt", -1, "data", none⟩

/-- Second tied candidate of the ordering counterexample (higher semantic
score, lexicographically smaller path, second in dedup order). -/
def rC5b : RankResult := ⟨"a.txt", "a.txt", -(9/10), "data", none⟩

/-- Intent for the ordering counterexample: recency requested (and no
parsable timestamp on the results), a type hint that matches neither. -/
def intentC5 : IntentAnalysis := ⟨true, ["code"]⟩

/-- Access patterns for the ordering counterexample: non-empty, with no
entry for either candidate. -/
def pattC5 : List (String × Nat) := [("z.txt", 1)]

/-- Ranker input for the filename-formula counterexample: the filename
contains the first query token only as a substring. -/
def resC7 : RankResult := ⟨"alphabet.txt", "alphabet.txt", 0, "text", none⟩

/-! ## Helper lemmas -/

/-- Counting lemma for the worklist fold: every file is counted exactly
once, as a success or as an error. -/
theorem runFiles_counts (env : Env) :
    ∀ (l : List String) (st : IndexerState),
      (runFiles env st l).2.1 + (runFiles env st l).2.2 = l.length
  | [], _ => rfl
  | p :: rest, st => by
    have ih := runFiles_counts env rest (index_single_file env st p).2
    simp only [runFiles]
    split <;> simp <;> omega

/-! ## C9: sampled content hash -/

/-- C9: the content hash is computed over the entire content when the file
size is at most S bytes, and otherwise over exactly three S/3-byte
windows read at offsets 0, size/2 and size - S/3. -/
theorem C9_hash_windows (bytes : List Nat) (S : Nat) :
    (bytes.length ≤ S → hashedSample bytes S = bytes) ∧
    (S < bytes.length →
      hashedSample bytes S =
        readAt bytes 0 (S / 3) ++ readAt bytes (bytes.length / 2) (S / 3) ++
          readAt bytes (bytes.length - S / 3) (S / 3) ∧
      (readAt bytes 0 (S / 3)).length = S / 3 ∧
      (readAt bytes (bytes.length / 2) (S / 3)).length = S / 3 ∧
      (readAt bytes (bytes.length - S / 3) (S / 3)).length = S / 3) := by
  constructor
  · intro h
    simp [hashedSample, h]
  · intro h
    refine ⟨by simp [hashedSample, Nat.not_le.mpr h], ?_, ?_, ?_⟩ <;>
      · simp only [readAt, List.length_take, List.length_drop]
        omega

/-- Witness for C9 on a ten-byte file with a six-byte sample budget: the
hashed stream is the three two-byte windows at offsets 0, 5 and 8. -/
theorem C9_hash_windows_witness :
    hashedSample [0, 1, 2, 3, 4, 5, 6, 7, 8, 9] 6 =
      readAt [0, 1, 2, 3, 4, 5, 6, 7, 8, 9] 0 2 ++
        readAt [0, 1, 2, 3, 4, 5, 6, 7, 8, 9] 5 2 ++
        readAt [0, 1, 2, 3, 4, 5, 6, 7, 8, 9] 8 2 :=
  ((C9_hash_windows [0, 1, 2, 3, 4, 5, 6, 7, 8, 9] 6).2 (by decide)).1

/-! ## C6: change detector classification -/

/-- C6: a path is classified unchanged exactly when a record exists, the
size matches, the mtime has not advanced and the content hash matches; a
path with no record needs reindexing, and an I/O error during inspection
needs reindexing. -/
theorem C6_change_detector (records : List (String × FileRecord))
    (disk : Disk) (p : String) :
    (needs_reindexing records disk p = false ↔
      ∃ r bytes mtime, dictGet records p = some r ∧
        disk p = .file bytes mtime ∧
        bytes.length = r.size_bytes ∧
        mtime ≤ r.modified_time ∧
        calculate_file_hash bytes = r.content_hash) ∧
    (dictGet records p = none → needs_reindexing records disk p = true) ∧
    (disk p = .ioError → needs_reindexing records disk p = true) := by
  refine ⟨?_, ?_, ?_⟩
  · rcases hr : dictGet records p with _ | r
    · simp [needs_reindexing, hr]
    · rcases hd : disk p with _ | _ | ⟨bytes, mtime⟩
      · simp [needs_reindexing, hr, hd]
      · simp [needs_reindexing, hr, hd]
      · simp only [needs_reindexing, hr, hd, Option.some.injEq,
          DiskEntry.file.injEq]
        constructor
        · intro hfalse
          split_ifs at hfalse with h1 h2 h3
          exact ⟨r, bytes, mtime, rfl, ⟨rfl, rfl⟩, not_ne_iff.mp h2,
            by omega, not_ne_iff.mp h3⟩
        · rintro ⟨r', b', m', hr', ⟨hb', hm'⟩, hlen, hle, hhash⟩
          cases hr'; cases hb'; cases hm'
          split_ifs with h1 h2 h3
          · omega
          · exact absurd hlen h2
          · exact absurd hhash h3
          · rfl
  · intro h
    simp [needs_reindexing, h]
  · intro h
    rcases hr : dictGet records p with _ | r
    · simp [needs_reindexing, hr]
    · simp [needs_reindexing, hr, h]

/-- Witness for C6: with an empty record table every path needs
reindexing. -/
theorem C6_change_detector_witness :
    needs_reindexing [] diskA1 "a" = true :=
  (C6_change_detector [] diskA1 "a").2.1 (by decide)

/-! ## C10: statistics identity -/

/-- C10: the statistics of every indexing run satisfy
processed + errors + skipped = total_files, and total_files is the length
of the input list (counts are natural numbers, hence non-negative). -/
theorem C10_stats_identity (env : Env) (st : IndexerState)
    (files : List String) :
    (incremental_index env st files).2.processed +
      (incremental_index env st files).2.errors +
      (incremental_index env st files).2.skipped =
      (incremental_index env st files).2.total_files ∧
    (incremental_index env st files).2.total_files = files.length := by
  have h1 := runFiles_counts env
    (files.filter (fun p => needs_reindexing st.file_records env.disk p)) st
  have h2 : (files.filter (fun p =>
      needs_reindexing st.file_records env.disk p)).length ≤ files.length :=
    List.length_filter_le _ _
  unfold incremental_index
  exact ⟨by simp only []; omega, rfl⟩

/-! ## C3: idempotent re-index -/

/-- C3: when every candidate is classified unchanged by the change
detector, incremental indexing commits nothing: the state is returned
untouched and the statistics report processed = 0, errors = 0 and every
file counted as skipped. -/
theorem C3_idempotent_reindex (env : Env) (st : IndexerState)
    (files : List String)
    (h : ∀ p ∈ files, needs_reindexing st.file_records env.disk p = false) :
    incremental_index env st files =
      (st, ⟨files.length, 0, files.length, 0⟩) := by
  have hfil : files.filter
      (fun p => needs_reindexing st.file_records env.disk p) = [] := by
    rw [List.filter_eq_nil_iff]
    intro a ha
    simp [h a ha]
  simp [incremental_index, hfil, runFiles]

/-- Witness for C3: the second call of the cleanup scenario's indexing run
on the unchanged disk commits nothing and reports both files skipped. -/
theorem C3_idempotent_reindex_witness :
    incremental_index envB1 stB1 ["a", "b"] = (stB1, ⟨2, 0, 2, 0⟩) :=
  C3_idempotent_reindex envB1 stB1 ["a", "b"] (by decide)

/-! ## C1: modification round-trip (behaviour of the code) -/

/-- C1: after path a is re-indexed with modified content, both the old and
the new vector remain live (ntotal = 2 for a single record), and the one
hit the subsequent search returns is scored by the prior slot's stale
vector (inner product 0 against the new content's query instead of 1);
the hit of the new slot is dropped because its index falls outside the
documents list.  This exhibits the absence of the tombstoning the claim
requires. -/
theorem C1_modification_behavior :
    stA2.vectors.length = 2 ∧
    stA2.file_records.length = 1 ∧
    indexer_search envA2 stA2 "beta" 10 =
      [(⟨⟨"a", "a", "beta", 1, "text"⟩, 1, 20⟩, 0)] := by decide

/-! ## C2: delete-then-cleanup (behaviour of the code) -/

/-- C2: cleanup after deleting path b returns 1 and removes b's record and
document entry, and subsequent searches no longer return b; but the
vector table is completely untouched (both slots remain, nothing is
tombstoned), so the vector of the removed file keeps participating in
every search. -/
theorem C2_cleanup_behavior :
    cleanB.1 = 1 ∧
    stB1.file_records.length = 2 ∧
    cleanB.2.file_records.length = 1 ∧
    dictGet cleanB.2.file_records "b" = none ∧
    cleanB.2.vectors = stB1.vectors ∧
    stB1.vectors.length = 2 ∧
    indexer_search envB2 cleanB.2 "beta" 10 =
      [(⟨⟨"a", "a", "alpha", 1, "text"⟩, 0, 10⟩, 0)] := by decide

/-! ## Helper lemmas for the ranker and the ordering -/

/-- The filename component always lies in the unit interval. -/
theorem filename_score_mem_unit (result : RankResult) (query : String) :
    0 ≤ calculate_filename_score result query ∧
      calculate_filename_score result query ≤ 1 := by
  by_cases hq : (strTokens (strLower query)).eraseDups = []
  · simp [calculate_filename_score, hq]
  · have hqpos : (0 : ℚ) < (strTokens (strLower query)).eraseDups.length := by
      have := List.length_pos.mpr hq
      exact_mod_cast this
    by_cases hm : ((strTokens (strLower query)).eraseDups.filter
        (fun w => ((strTokens (strLower result.filename)).eraseDups).contains w)) = []
    · simp only [calculate_filename_score, hq, if_false, hm, ne_eq,
        not_true_eq_false]
      constructor
      · refine le_min (by norm_num) ?_
        positivity
      · simp
    · simp only [calculate_filename_score, hq, if_false, hm, ne_eq,
        not_false_eq_true, if_true]
      constructor
      · positivity
      · rw [div_le_one hqpos]
        exact_mod_cast List.length_filter_le _ _

/-- Inserting into the confidence-ordered list is a permutation of
prepending. -/
theorem insertScored_perm (x : RankedOut) (l : List RankedOut) :
    List.Perm (insertScored x l) (x :: l) := by
  induction l with
  | nil => rfl
  | cons y ys ih =>
    unfold insertScored
    split
    · rfl
    · exact (ih.cons y).trans (List.Perm.swap x y ys)

/-- Inserting into a confidence-descending list keeps it descending. -/
theorem insertScored_pairwise (x : RankedOut) (l : List RankedOut)
    (h : l.Pairwise (fun a b => b.confidence ≤ a.confidence)) :
    (insertScored x l).Pairwise (fun a b => b.confidence ≤ a.confidence) := by
  induction l with
  | nil => simp [insertScored]
  | cons y ys ih =>
    rw [List.pairwise_cons] at h
    obtain ⟨hy, hys⟩ := h
    unfold insertScored
    split_ifs with hc
    · refine List.Pairwise.cons ?_ (List.Pairwise.cons hy hys)
      intro z hz
      rcases List.mem_cons.mp hz with hz | hz
      · subst hz; exact le_of_lt hc
      · exact le_trans (hy z hz) (le_of_lt hc)
    · refine List.Pairwise.cons ?_ (ih hys)
      intro z hz
      rcases List.mem_cons.mp ((insertScored_perm x ys).mem_iff.mp hz) with hz | hz
      · subst hz; exact le_of_not_lt hc
      · exact hy z hz

/-- The stable confidence sort permutes its input. -/
theorem sortScored_perm (l : List RankedOut) : List.Perm (sortScored l) l := by
  suffices h : ∀ (l acc : List RankedOut),
      List.Perm (l.foldl (fun acc x => insertScored x acc) acc) (acc ++ l) by
    simpa using h l []
  intro l
  induction l with
  | nil => intro acc; simp
  | cons x xs ih =>
    intro acc
    refine List.Perm.trans (ih (insertScored x acc)) ?_
    refine List.Perm.trans ((insertScored_perm x acc).append_right xs) ?_
    exact List.perm_middle.symm

/-- The stable confidence sort produces a descending list. -/
theorem sortScored_pairwise (l : List RankedOut) :
    (sortScored l).Pairwise (fun a b => b.confidence ≤ a.confidence) := by
  suffices h : ∀ (l acc : List RankedOut),
      acc.Pairwise (fun a b => b.confidence ≤ a.confidence) →
      (l.foldl (fun acc x => insertScored x acc) acc).Pairwise
        (fun a b => b.confidence ≤ a.confidence) by
    exact h l [] (by simp)
  intro l
  induction l with
  | nil => intro acc hacc; simpa using hacc
  | cons x xs ih =>
    intro acc hacc
    exact ih (insertScored x acc) (insertScored_pairwise x acc hacc)

/-- Inserting splits the list at the insertion point: the prefix of the
list is kept, and the new element lands right before the first entry of
strictly smaller confidence (or at the end). -/
theorem insertScored_split (x : RankedOut) (l : List RankedOut) :
    ∃ l₁ l₂, l = l₁ ++ l₂ ∧ insertScored x l = l₁ ++ x :: l₂ ∧
      (∀ y ∈ l₁, ¬ y.confidence < x.confidence) ∧
      (l₂ = [] ∨ ∃ z zs, l₂ = z :: zs ∧ z.confidence < x.confidence) := by
  induction l with
  | nil => exact ⟨[], [], rfl, rfl, by simp, Or.inl rfl⟩
  | cons y ys ih =>
    by_cases hc : y.confidence < x.confidence
    · refine ⟨[], y :: ys, rfl, ?_, by simp, Or.inr ⟨y, ys, rfl, hc⟩⟩
      simp [insertScored, hc]
    · obtain ⟨l₁, l₂, hsplit, hins, hall, htail⟩ := ih
      refine ⟨y :: l₁, l₂, by simp [hsplit], ?_, ?_, htail⟩
      · simp [insertScored, hc, hins]
      · intro w hw
        rcases List.mem_cons.mp hw with rfl | hw
        · exact hc
        · exact hall w hw

/-- Inserting into a confidence-descending list appends the new element
at the end of its own confidence class and leaves every other class
untouched. -/
theorem insertScored_filter (x : RankedOut) (l : List RankedOut) (c : ℚ)
    (hl : l.Pairwise (fun a b => b.confidence ≤ a.confidence)) :
    (insertScored x l).filter (fun r => r.confidence = c) =
      if x.confidence = c then
        l.filter (fun r => r.confidence = c) ++ [x]
      else l.filter (fun r => r.confidence = c) := by
  obtain ⟨l₁, l₂, hsplit, hins, hall, htail⟩ := insertScored_split x l
  subst hsplit
  rw [hins]
  by_cases hx : x.confidence = c
  · rw [if_pos hx]
    have h2 : l₂.filter (fun r => r.confidence = c) = [] := by
      rcases htail with rfl | ⟨z, zs, rfl, hz⟩
      · rfl
      · rw [List.filter_eq_nil_iff]
        intro w hw
        have hwz : w.confidence ≤ z.confidence := by
          rcases List.mem_cons.mp hw with rfl | hw
          · exact le_refl _
          · have hzs := (List.pairwise_append.mp hl).2.1
            rw [List.pairwise_cons] at hzs
            exact hzs.1 w hw
        simp only [decide_eq_true_eq]
        intro hwc
        rw [← hx] at hwc
        exact absurd (lt_of_le_of_lt (hwc ▸ hwz) hz) (lt_irrefl _)
    simp [List.filter_append, h2, hx]
  · rw [if_neg hx]
    simp [List.filter_append, hx]

/-- Folding insertions preserves, confidence class by confidence class,
the input order of equal-confidence elements. -/
theorem sortScoredAux_filter (c : ℚ) :
    ∀ (l acc : List RankedOut),
      acc.Pairwise (fun a b => b.confidence ≤ a.confidence) →
      (l.foldl (fun a x => insertScored x a) acc).filter
          (fun r => r.confidence = c) =
        acc.filter (fun r => r.confidence = c) ++
          l.filter (fun r => r.confidence = c)
  | [], acc, _ => by simp
  | x :: xs, acc, hacc => by
    have ih := sortScoredAux_filter c xs (insertScored x acc)
      (insertScored_pairwise x acc hacc)
    simp only [List.foldl_cons]
    rw [ih, insertScored_filter x acc c hacc]
    by_cases hx : x.confidence = c
    · rw [if_pos hx]
      simp [List.filter_cons, hx]
    · rw [if_neg hx]
      simp [List.filter_cons, hx]

/-- Stability of the confidence sort: each confidence class filters to
exactly the same list before and after sorting, so tied elements keep
their input order. -/
theorem sortScored_filter (l : List RankedOut) (c : ℚ) :
    (sortScored l).filter (fun r => r.confidence = c) =
      l.filter (fun r => r.confidence = c) := by
  simpa using sortScoredAux_filter c l [] (by simp)

/-- Every staged accumulation of the domain inner loop only appends. -/
theorem appendTerms_extends (q ql : String) (m : Nat) :
    ∀ (ts acc : List String), ∃ ext, appendTerms q ql m acc ts = acc ++ ext := by
  intro ts
  induction ts with
  | nil => intro acc; exact ⟨[], by simp [appendTerms]⟩
  | cons t rest ih =>
    intro acc
    unfold appendTerms
    split_ifs with h1 h2
    · exact ih acc
    · exact ⟨[q ++ " " ++ t], rfl⟩
    · obtain ⟨ext, hx⟩ := ih (acc ++ [q ++ " " ++ t])
      exact ⟨[q ++ " " ++ t] ++ ext, by rw [hx]; simp⟩

/-- Every staged accumulation of the synonym inner loop only appends. -/
theorem appendSyns_extends (q w : String) (m : Nat) :
    ∀ (syns acc : List String), ∃ ext, appendSyns q w m acc syns = acc ++ ext := by
  intro syns
  induction syns with
  | nil => intro acc; exact ⟨[], by simp [appendSyns]⟩
  | cons s rest ih =>
    intro acc
    unfold appendSyns
    split_ifs with h1
    · exact ⟨[String.mk (replaceAll w.toList s.toList q.toList)], rfl⟩
    · obtain ⟨ext, hx⟩ :=
        ih (acc ++ [String.mk (replaceAll w.toList s.toList q.toList)])
      exact ⟨[String.mk (replaceAll w.toList s.toList q.toList)] ++ ext,
        by rw [hx]; simp⟩

/-- A fold whose step only appends itself only appends. -/
theorem foldl_extends {β : Type} (f : List String → β → List String)
    (hf : ∀ acc b, ∃ ext, f acc b = acc ++ ext) :
    ∀ (l : List β) (acc : List String), ∃ ext, l.foldl f acc = acc ++ ext := by
  intro l
  induction l with
  | nil => intro acc; exact ⟨[], by simp⟩
  | cons b bs ih =>
    intro acc
    obtain ⟨e1, h1⟩ := hf acc b
    obtain ⟨e2, h2⟩ := ih (f acc b)
    refine ⟨e1 ++ e2, ?_⟩
    rw [List.foldl_cons, h2, h1, List.append_assoc]

/-- The domain stage only appends to its accumulator. -/
theorem domainStage_extends (q ql : String) (m : Nat) (acc0 : List String) :
    ∃ ext, domainStage q ql m acc0 = acc0 ++ ext := by
  unfold domainStage
  refine foldl_extends _ ?_ _ acc0
  intro acc e
  split_ifs with h
  · exact appendTerms_extends q ql m (e.2.take 2) acc
  · exact ⟨[], by simp⟩

/-- The synonym stage only appends to its accumulator. -/
theorem synonymStage_extends (q : String) (m : Nat) (words : List String)
    (acc0 : List String) :
    ∃ ext, synonymStage q m words acc0 = acc0 ++ ext := by
  unfold synonymStage
  refine foldl_extends _ ?_ _ acc0
  intro acc w
  rcases dictGet synonymsTable w with _ | syns
  · exact ⟨[], by simp⟩
  · exact appendSyns_extends q w m (syns.take 2) acc

/-- The pre-truncation expansion list always starts with the original
query. -/
theorem preTake_head (q : String) (m : Nat) :
    ∃ rest, preTake q m = q :: rest := by
  obtain ⟨e1, h1⟩ := domainStage_extends q (strLower q) m [q]
  obtain ⟨e2, h2⟩ := synonymStage_extends q m (strTokens (strLower q))
    (domainStage q (strLower q) m [q])
  simp only [preTake]
  rw [h2, h1]
  by_cases hw : 1 < (strTokens (strLower q)).length
  · rw [if_pos hw]
    refine ⟨e1 ++ (e2 ++ [String.intercalate " " (strTokens (strLower q)).dropLast,
      String.intercalate " " (strTokens (strLower q)).tail]), ?_⟩
    simp
  · rw [if_neg hw]
    refine ⟨e1 ++ e2, ?_⟩
    simp

/-! ## C4: component scores and the weighted sum -/

/-- C4 counterexample: at a raw inner-product score of -1/2 with all other
signals neutral, the ranker's final score is 1/40, the claimed formula
with the (s+1)/2 rescale yields 13/40, and the semantic component the
ranker actually uses is -1/2, outside the unit interval. -/
theorem C4_rescale_counterexample :
    calculate_relevance_score resC4 "qqq" intentC4 [] = 1/40 ∧
    relevance_score_claimed resC4 "qqq" intentC4 [] = 13/40 ∧
    dictGet (scoreComponents resC4 "qqq" intentC4 []) "semantic_similarity" =
      some (-(1/2)) ∧
    ((1 : ℚ)/40 ≠ 13/40) ∧ ¬ ((0 : ℚ) ≤ -(1/2)) := by
  have hrec : calculate_recency_score resC4 intentC4 = 1/2 := by
    simp [calculate_recency_score, intentC4]
  have hft : calculate_file_type_score resC4 intentC4 = 1/2 := by
    simp [calculate_file_type_score, intentC4]
  have hacc : calculate_access_score resC4 [] = 1/2 := by
    simp [calculate_access_score]
  have hfn : calculate_filename_score resC4 "qqq" = 0 := by
    have h1 : (strTokens (strLower "qqq")).eraseDups = ["qqq"] := rfl
    have h2 : (strTokens (strLower resC4.filename)).eraseDups = ["zzz", "txt"] := rfl
    have h3 : containsStr (strLower resC4.filename) "qqq" = false := rfl
    simp [calculate_filename_score, h1, h2, h3]
  have hsim : resC4.similarity_score = -(1/2) := rfl
  refine ⟨?_, ?_, ?_, by norm_num, by norm_num⟩
  · simp only [calculate_relevance_score, scoreComponents, ranking_weights,
      dictGet, List.find?]
    simp [hrec, hft, hacc, hfn, hsim]
    norm_num [min_def, max_def]
  · simp only [relevance_score_claimed]
    rw [hrec, hft, hacc, hfn, hsim]
    norm_num [min_def, max_def]
  · simp [scoreComponents, dictGet, List.find?, hsim]

/-- C4 amended: the recency, file-type, filename and access components lie
in the unit interval; the semantic component is the raw best
inner-product score, used without rescaling; the final relevance score
is the weighted sum with weights 0.40, 0.20, 0.15, 0.15, 0.10 clamped to
the unit interval. -/
theorem C4_weighted_sum (result : RankResult) (query : String)
    (intent : IntentAnalysis) (patterns : List (String × Nat)) :
    (0 ≤ calculate_recency_score result intent ∧
      calculate_recency_score result intent ≤ 1) ∧
    (0 ≤ calculate_file_type_score result intent ∧
      calculate_file_type_score result intent ≤ 1) ∧
    (0 ≤ calculate_filename_score result query ∧
      calculate_filename_score result query ≤ 1) ∧
    (0 ≤ calculate_access_score result patterns ∧
      calculate_access_score result patterns ≤ 1) ∧
    calculate_relevance_score result query intent patterns =
      min 1 (max 0 (result.similarity_score * (2/5) +
        calculate_recency_score result intent * (1/5) +
        calculate_file_type_score result intent * (3/20) +
        calculate_filename_score result query * (3/20) +
        calculate_access_score result patterns * (1/10))) ∧
    0 ≤ calculate_relevance_score result query intent patterns ∧
    calculate_relevance_score result query intent patterns ≤ 1 := by
  refine ⟨?_, ?_, filename_score_mem_unit result query, ?_, ?_, ?_, ?_⟩
  · unfold calculate_recency_score
    cases hh : result.age_days <;> dsimp only <;> split_ifs <;> norm_num
  · simp only [calculate_file_type_score]
    split_ifs <;> norm_num
  · simp only [calculate_access_score]
    split_ifs <;> norm_num
  · simp only [calculate_relevance_score, scoreComponents, ranking_weights,
      dictGet, List.find?]
    simp
    ring_nf
  · simp only [calculate_relevance_score]
    exact le_min (by norm_num) (le_max_left 0 _)
  · simp only [calculate_relevance_score]
    exact min_le_left _ _

/-! ## C5: result ordering -/

/-- C5 counterexample: two candidates whose final scores tie (both clamp
to 0), where the first-seen candidate has the strictly smaller semantic
score and the lexicographically larger path (compared as character
lists); the engine keeps it first, so ties are not broken by larger
semantic score nor by lexicographic path. -/
theorem C5_tiebreak_counterexample :
    (engineRank [rC5a, rC5b] "qqq" intentC5 pattC5 10).map
        (fun r => (r.file_path, r.similarity_score, r.confidence)) =
      [("b.txt", -1, 0), ("a.txt", -(9/10), 0)] ∧
    ((-1 : ℚ) < -(9/10)) ∧ ("a.txt".toList < "b.txt".toList) := by
  have hfa : calculate_filename_score rC5a "qqq" = 0 := by
    have h1 : (strTokens (strLower "qqq")).eraseDups = ["qqq"] := rfl
    have h2 : (strTokens (strLower rC5a.filename)).eraseDups = ["b", "txt"] := rfl
    have h3 : containsStr (strLower rC5a.filename) "qqq" = false := rfl
    simp [calculate_filename_score, h1, h2, h3]
  have hfb : calculate_filename_score rC5b "qqq" = 0 := by
    have h1 : (strTokens (strLower "qqq")).eraseDups = ["qqq"] := rfl
    have h2 : (strTokens (strLower rC5b.filename)).eraseDups = ["a", "txt"] := rfl
    have h3 : containsStr (strLower rC5b.filename) "qqq" = false := rfl
    simp [calculate_filename_score, h1, h2, h3]
  have hcata : strLower rC5a.category = "data" := rfl
  have hcatb : strLower rC5b.category = "data" := rfl
  have hca : calculate_relevance_score rC5a "qqq" intentC5 pattC5 = 0 := by
    have hrec : calculate_recency_score rC5a intentC5 = 0 := by
      simp [calculate_recency_score, intentC5, rC5a]
    have hft : calculate_file_type_score rC5a intentC5 = 3/10 := by
      simp [calculate_file_type_score, intentC5, hcata]
    have hacc : calculate_access_score rC5a pattC5 = 3/10 := by
      simp [calculate_access_score, pattC5, dictGet, List.find?, rC5a]
    have hsim : rC5a.similarity_score = -1 := rfl
    simp only [calculate_relevance_score, scoreComponents, ranking_weights,
      dictGet, List.find?]
    simp [hrec, hft, hacc, hfa, hsim]
    norm_num [min_def, max_def]
  have hcb : calculate_relevance_score rC5b "qqq" intentC5 pattC5 = 0 := by
    have hrec : calculate_recency_score rC5b intentC5 = 0 := by
      simp [calculate_recency_score, intentC5, rC5b]
    have hft : calculate_file_type_score rC5b intentC5 = 3/10 := by
      simp [calculate_file_type_score, intentC5, hcatb]
    have hacc : calculate_access_score rC5b pattC5 = 3/10 := by
      simp [calculate_access_score, pattC5, dictGet, List.find?, rC5b]
    have hsim : rC5b.similarity_score = -(9/10) := rfl
    simp only [calculate_relevance_score, scoreComponents, ranking_weights,
      dictGet, List.find?]
    simp [hrec, hft, hacc, hfb, hsim]
    norm_num [min_def, max_def]
  have hp1 : rC5a.file_path = "b.txt" := rfl
  have hp2 : rC5b.file_path = "a.txt" := rfl
  have hs1 : rC5a.similarity_score = -1 := rfl
  have hs2 : rC5b.similarity_score = -(9/10) := rfl
  refine ⟨?_, by norm_num, by decide⟩
  simp [engineRank, dedupeResults, insertBest, toRankedOut, sortScored,
    insertScored, hp1, hp2, hs1, hs2, hca, hcb]

/-- C5 amended: the returned results are ordered by final relevance score
descending and form a sub-permutation of the scored deduplicated
candidates, and the sort is stable: for every confidence value, the
results carrying it are an initial run of the equal-confidence
candidates in the order their paths first appeared in the deduplicated
candidate list; the whole pipeline is a pure function of its inputs. -/
theorem C5_sorted_descending (raw : List RankResult) (query : String)
    (intent : IntentAnalysis) (patterns : List (String × Nat))
    (top_k : Nat) :
    ((engineRank raw query intent patterns top_k).Pairwise
      (fun a b => b.confidence ≤ a.confidence)) ∧
    List.Subperm (engineRank raw query intent patterns top_k)
      ((dedupeResults raw).map (toRankedOut query intent patterns)) ∧
    (∀ c : ℚ, ∃ t,
      (engineRank raw query intent patterns top_k).filter
          (fun r => r.confidence = c) ++ t =
        ((dedupeResults raw).map (toRankedOut query intent patterns)).filter
          (fun r => r.confidence = c)) := by
  refine ⟨?_, ?_, ?_⟩
  · exact List.Pairwise.sublist (List.take_sublist _ _) (sortScored_pairwise _)
  · exact ((List.take_sublist _ _).subperm).trans (sortScored_perm _).subperm
  · intro c
    refine ⟨((sortScored ((dedupeResults raw).map
        (toRankedOut query intent patterns))).drop top_k).filter
          (fun r => r.confidence = c), ?_⟩
    show ((sortScored ((dedupeResults raw).map
        (toRankedOut query intent patterns))).take top_k).filter
          (fun r => r.confidence = c) ++ _ = _
    rw [← List.filter_append, List.take_append_drop, sortScored_filter]

/-! ## C7: filename component formula -/

/-- C7 counterexample: for the query alpha beta against filename
alphabet.txt there is no exact token overlap and exactly one substring
hit, so the ranker scores 0.5/2 = 1/4 while the claimed 0.5-per-hit
formula scores 1/2. -/
theorem C7_formula_counterexample :
    calculate_filename_score resC7 "alpha beta" = 1/4 ∧
    filename_score_claimed resC7 "alpha beta" = 1/2 ∧
    ((1 : ℚ)/4 ≠ 1/2) := by
  have h1 : (strTokens (strLower "alpha beta")).eraseDups = ["alpha", "beta"] := rfl
  have h2 : (strTokens (strLower resC7.filename)).eraseDups = ["alphabet", "txt"] := rfl
  have h3 : containsStr (strLower resC7.filename) "alpha" = true := rfl
  have h4 : containsStr (strLower resC7.filename) "beta" = false := rfl
  refine ⟨?_, ?_, by norm_num⟩
  · simp [calculate_filename_score, h1, h2, h3, h4]
    norm_num [min_def]
  · simp [filename_score_claimed, h1, h2, h3, h4]
    norm_num [min_def]

/-- C7 amended: with exact token overlap the score is overlap divided by
the number of distinct query tokens; otherwise it is 0.5 per substring
hit divided by the number of distinct query tokens, clipped to 1. -/
theorem C7_filename_formula (result : RankResult) (query : String) :
    ((strTokens (strLower query)).eraseDups ≠ [] →
      ((strTokens (strLower query)).eraseDups.filter
          (fun w => ((strTokens (strLower result.filename)).eraseDups).contains w)) ≠ [] →
      calculate_filename_score result query =
        (((strTokens (strLower query)).eraseDups.filter
          (fun w => ((strTokens (strLower result.filename)).eraseDups).contains w)).length : ℚ) /
          (strTokens (strLower query)).eraseDups.length) ∧
    ((strTokens (strLower query)).eraseDups ≠ [] →
      ((strTokens (strLower query)).eraseDups.filter
          (fun w => ((strTokens (strLower result.filename)).eraseDups).contains w)) = [] →
      calculate_filename_score result query =
        min 1 ((((strTokens (strLower query)).eraseDups.filter
          (fun w => containsStr (strLower result.filename) w)).length : ℚ) /
          (2 * (strTokens (strLower query)).eraseDups.length))) := by
  constructor
  · intro hq hm
    simp only [calculate_filename_score, hq, if_false, hm, ne_eq,
      not_false_eq_true, if_true]
  · intro hq hm
    simp only [calculate_filename_score, hq, if_false, hm, ne_eq,
      not_true_eq_false, if_false]
    congr 1
    ring

/-- Witness for C7 on the counterexample inputs: the no-overlap branch of
the amended formula. -/
theorem C7_filename_formula_witness :
    calculate_filename_score resC7 "alpha beta" =
      min 1 ((((strTokens (strLower "alpha beta")).eraseDups.filter
        (fun w => containsStr (strLower resC7.filename) w)).length : ℚ) /
        (2 * (strTokens (strLower "alpha beta")).eraseDups.length)) :=
  (C7_filename_formula resC7 "alpha beta").2 (by decide) (by decide)

/-! ## C8: query expansion shape -/

/-- C8 counterexample: for a four-token query that triggers one domain
expansion fully and a second one partially, the pre-truncation list
holds four entries before the phrase step, so after the phrase step and
the cut to five the prefix variant survives but the suffix variant
(first word dropped) is cut away, although the query has more than one
token and the limit had not been reached before the phrase step. -/
theorem C8_truncation_counterexample :
    expand_query "financial profit customer x" 5 =
      ["financial profit customer x",
       "financial profit customer x revenue",
       "financial profit customer x client",
       "financial profit customer x user",
       "financial profit customer"] ∧
    "profit customer x" ∉ expand_query "financial profit customer x" 5 ∧
    1 < (strTokens (strLower "financial profit customer x")).length := by decide

/-- C8 amended: expand_query returns at most max_expansions entries whose
first entry is the original query; for a multi-token query the prefix
variant (last word dropped) is included whenever fewer than
max_expansions entries precede the phrase step, and the suffix variant
(first word dropped) whenever at least two slots remain. -/
theorem C8_expansion_shape (query : String) (maxExp : Nat) :
    ((expand_query query maxExp).length ≤ maxExp) ∧
    (1 ≤ maxExp → (expand_query query maxExp).head? = some query) ∧
    (1 < (strTokens (strLower query)).length →
      (synonymStage query maxExp (strTokens (strLower query))
        (domainStage query (strLower query) maxExp [query])).length < maxExp →
      String.intercalate " " (strTokens (strLower query)).dropLast ∈
        expand_query query maxExp) ∧
    (1 < (strTokens (strLower query)).length →
      (synonymStage query maxExp (strTokens (strLower query))
        (domainStage query (strLower query) maxExp [query])).length + 1 < maxExp →
      String.intercalate " " (strTokens (strLower query)).tail ∈
        expand_query query maxExp) := by
  refine ⟨?_, ?_, ?_, ?_⟩
  · exact List.length_take_le _ _
  · intro hm
    obtain ⟨rest, hrest⟩ := preTake_head query maxExp
    unfold expand_query
    rw [hrest]
    obtain ⟨m, rfl⟩ : ∃ m, maxExp = m + 1 := ⟨maxExp - 1, by omega⟩
    simp [List.take_succ_cons]
  · intro hw hlen
    unfold expand_query
    simp only [preTake]
    rw [if_pos hw, List.take_append_eq_append_take]
    refine List.mem_append_right _ ?_
    rcases hsub : maxExp -
        (synonymStage query maxExp (strTokens (strLower query))
          (domainStage query (strLower query) maxExp [query])).length with _ | k
    · exact absurd hsub (by omega)
    · simp
  · intro hw hlen
    unfold expand_query
    simp only [preTake]
    rw [if_pos hw, List.take_append_eq_append_take]
    refine List.mem_append_right _ ?_
    rw [List.take_of_length_le (by simp; omega)]
    simp

/-- Witness for C8 on a two-token query with no domain or synonym firings:
both the prefix variant and the suffix variant survive the cut. -/
theorem C8_expansion_shape_witness :
    "alpha" ∈ expand_query "alpha beta" 5 ∧
    "beta" ∈ expand_query "alpha beta" 5 := by
  constructor
  · exact (C8_expansion_shape "alpha beta" 5).2.2.1 (by decide) (by decide)
  · exact (C8_expansion_shape "alpha beta" 5).2.2.2 (by decide) (by decide)
